import Mathlib

/-!
Verification development for the magus-library card-reference resolver.

The development shallowly embeds the two source components:
  * `src/services/parser.ts`   — `parseString`, the reference parser;
  * `src/services/scryfall.ts` — `ScryfallService` (`getCard`, `getCardsBatch`,
    `_getListFromApi`, `_callApi`), the resolution client.

Strings are modelled as `List Char`.  Promises are modelled as
`Except Unit (Option t)`: `Except.error ()` is a rejected promise (a transport
fault), `Except.ok none` a promise resolved to `undefined` (an absent result),
`Except.ok (some v)` a promise resolved to a value.  The HTTP transport is an
explicit oracle `fetch : List Char → FetchResult body`.
-/

namespace Magus

/-! ## Character classes (JavaScript regex semantics) -/

/-- ASCII decimal digit, the class `[0-9]`. -/
def isDigitChar (c : Char) : Bool :=
  decide (48 ≤ c.toNat) && decide (c.toNat ≤ 57)

/-- ASCII letter, the class `[a-zA-Z]`. -/
def isAsciiLetter (c : Char) : Bool :=
  (decide (97 ≤ c.toNat) && decide (c.toNat ≤ 122)) ||
  (decide (65 ≤ c.toNat) && decide (c.toNat ≤ 90))

/-- ASCII letter or digit, the class `[a-zA-Z0-9]`. -/
def isAlnumAscii (c : Char) : Bool := isAsciiLetter c || isDigitChar c

/-- Lowercase hexadecimal digit, the class `[0-9a-f]`. -/
def isHexLower (c : Char) : Bool :=
  (decide (48 ≤ c.toNat) && decide (c.toNat ≤ 57)) ||
  (decide (97 ≤ c.toNat) && decide (c.toNat ≤ 102))

/-- Code points matched by the JavaScript regex class `\s` (WhiteSpace and
LineTerminator productions). -/
def jsSpaceCodes : List Nat :=
  [9, 10, 11, 12, 13, 32, 160, 0x1680,
   0x2000, 0x2001, 0x2002, 0x2003, 0x2004, 0x2005, 0x2006, 0x2007,
   0x2008, 0x2009, 0x200A, 0x2028, 0x2029, 0x202F, 0x205F, 0x3000, 0xFEFF]

/-- The JavaScript regex class `\s`. -/
def isJsSpace (c : Char) : Bool := jsSpaceCodes.contains c.toNat

/-- JavaScript line terminators, the characters NOT matched by `.`
(no `s` flag). -/
def isLineTerm (c : Char) : Bool :=
  decide (c.toNat = 10) || decide (c.toNat = 13) ||
  decide (c.toNat = 0x2028) || decide (c.toNat = 0x2029)

/-! ## The two name-shape regexes of `ScryfallService`

`uuidRegexp  = /^[0-9a-f]{8}-[0-9a-f]{4}-[0-9a-f]{4}-[0-9a-f]{4}-[0-9a-f]{12}$/`
`codeNumberRegexp = /^[a-zA-Z0-9]{3,5}\/[^/]+(?:\/(?:[a-zA-Z]{2,3})?)?$/`
-/

/-- Consume exactly `n` characters satisfying `p`, returning the remainder;
the regex piece `p{n}`. -/
def expectRun (p : Char → Bool) : Nat → List Char → Option (List Char)
  | 0, s => some s
  | _ + 1, [] => none
  | n + 1, c :: rest => if p c then expectRun p n rest else none

/-- Consume one expected literal character, returning the remainder. -/
def expectChar (a : Char) : List Char → Option (List Char)
  | [] => none
  | c :: rest => if c = a then some rest else none

/-- `uuidRegexp.test name`: the strict 8-4-4-4-12 lowercase-hex grouping,
anchored on both ends. -/
def uuidTest (s : List Char) : Bool :=
  match ((((((((expectRun isHexLower 8 s).bind (expectChar '-')).bind
      (expectRun isHexLower 4)).bind (expectChar '-')).bind
      (expectRun isHexLower 4)).bind (expectChar '-')).bind
      (expectRun isHexLower 4)).bind (expectChar '-')).bind
      (expectRun isHexLower 12) with
  | some [] => true
  | _ => false

/-- JavaScript `String.prototype.split('/')`: splits at every slash and keeps
empty segments. -/
def splitOnSlash : List Char → List (List Char)
  | [] => [[]]
  | c :: rest =>
    if c = '/' then [] :: splitOnSlash rest
    else
      match splitOnSlash rest with
      | [] => [[c]]
      | h :: t => (c :: h) :: t

/-- JavaScript `Array.prototype.join('/')`. -/
def joinSlash : List (List Char) → List Char
  | [] => []
  | [x] => x
  | x :: y :: t => x ++ '/' :: joinSlash (y :: t)

/-- `codeNumberRegexp.test name`.  The regex is anchored, its first component
is 3–5 alphanumerics, its second `[^/]+` cannot cross a slash, and the
optional third is empty or 2–3 letters; so a full match is exactly a 2- or
3-way slash decomposition with those component constraints. -/
def codeTest (s : List Char) : Bool :=
  match splitOnSlash s with
  | [a, b] =>
    decide (3 ≤ a.length) && decide (a.length ≤ 5) && a.all isAlnumAscii &&
    !b.isEmpty
  | [a, b, c] =>
    decide (3 ≤ a.length) && decide (a.length ≤ 5) && a.all isAlnumAscii &&
    !b.isEmpty &&
    (c.isEmpty || (c.all isAsciiLetter &&
      (decide (c.length = 2) || decide (c.length = 3))))
  | _ => false

/-! ## Model of the platform `encodeURIComponent` builtin -/

/-- Upper-case hexadecimal digit for one value below 16. -/
def hexDigitUpper (n : Nat) : Char :=
  if n < 10 then Char.ofNat (48 + n) else Char.ofNat (55 + n)

/-- UTF-8 byte sequence of one code point. -/
def utf8Bytes (n : Nat) : List Nat :=
  if n < 0x80 then [n]
  else if n < 0x800 then [0xC0 + n / 64, 0x80 + n % 64]
  else if n < 0x10000 then
    [0xE0 + n / 4096, 0x80 + n / 64 % 64, 0x80 + n % 64]
  else
    [0xF0 + n / 262144, 0x80 + n / 4096 % 64, 0x80 + n / 64 % 64,
     0x80 + n % 64]

/-- Percent-encoding of one byte. -/
def pctEncodeByte (b : Nat) : List Char :=
  ['%', hexDigitUpper (b / 16), hexDigitUpper (b % 16)]

/-- Characters `encodeURIComponent` leaves unescaped: ASCII letters, digits,
and `- _ . ! ~ * ' ( )` (code points 45, 95, 46, 33, 126, 42, 39, 40, 41). -/
def isUnreservedURI (c : Char) : Bool :=
  isAsciiLetter c || isDigitChar c ||
  [45, 95, 46, 33, 126, 42, 39, 40, 41].contains c.toNat

/-- Modelled from the spec: the platform's `encodeURIComponent` builtin
(an external collaborator, not part of the repository) — every character
outside the unreserved set is replaced by the percent-encoding of its UTF-8
bytes. -/
def encodeURIComponent (s : List Char) : List Char :=
  s.foldr
    (fun c acc =>
      (if isUnreservedURI c then [c]
       else (utf8Bytes c.toNat).foldr (fun b bs => pctEncodeByte b ++ bs) [])
      ++ acc)
    []

/-! ## Data model (`ParsedCard` from `src/types`) -/

/-- Mapping from flag name to optional string value; models the JavaScript
`Map<string, string | undefined>` built by the flag parser (`none` as a value
models an entry whose value is `undefined`). -/
abbrev FlagMap := List (List Char × Option (List Char))

/-- Lookup in a flag map; `none` means the key is absent. -/
def mapGet : FlagMap → List Char → Option (Option (List Char))
  | [], _ => none
  | p :: rest, k => if p.1 = k then some p.2 else mapGet rest k

/-- `Map.prototype.set` with last-write-wins overwrite in place. -/
def mapSet : FlagMap → List Char → Option (List Char) → FlagMap
  | [], k, v => [(k, v)]
  | p :: rest, k, v => if p.1 = k then (k, v) :: rest else p :: mapSet rest k v

/-- `Map.prototype.delete`. -/
def mapDelete : FlagMap → List Char → FlagMap
  | [], _ => []
  | p :: rest, k =>
    if p.1 = k then mapDelete rest k else p :: mapDelete rest k

/-- The structured card reference (`ParsedCard` in `src/types`). -/
structure ParsedCard where
  name : List Char
  quantity : Nat
  language : Option (List Char)
  customFlags : FlagMap
deriving DecidableEq, Repr

/-! ## `ScryfallService.getCard` request construction
(`src/services/scryfall.ts` lines 31–57) -/

/-- `SCRYFALL_API_URI`. -/
def SCRYFALL_API_URI : List Char := "https://api.scryfall.com".data

/-- `validLanguages`. -/
def validLanguages : List (List Char) :=
  ["en", "es", "fr", "de", "it", "pt", "ja", "ko", "ru", "zhs", "zht"].map
    String.data

/-- The `cardCode` computed in `getCard`'s code branch: when the reference
carries a recognized language, the first two slash components of the name are
kept (`name.split('/').slice(0, 2).join('/')`) and the language is appended;
otherwise the name is used unchanged. -/
def effectiveCardCode (card : ParsedCard) : List Char :=
  match card.language with
  | some lang =>
    if lang ∈ validLanguages then
      joinSlash ((splitOnSlash card.name).take 2) ++ '/' :: lang
    else card.name
  | none => card.name

/-- The request URI built by `getCard` before calling `_callApi`. -/
def getCardRequestURI (card : ParsedCard) : List Char :=
  if uuidTest card.name then
    SCRYFALL_API_URI ++ "/cards/".data ++ card.name
  else if codeTest card.name then
    SCRYFALL_API_URI ++ "/cards/".data ++ effectiveCardCode card
  else
    SCRYFALL_API_URI ++ "/cards/named/?fuzzy=".data ++
      encodeURIComponent card.name

/-! ## The reference parser (`src/services/parser.ts`)

`parseString` matches the input against the anchored JavaScript regex

  `/^(?:([0-9]+)\s+)?(.*?)((?:\s-[a-zA-Z]+(?:=\S*)?)*)?$/`

The embedding below reproduces the backtracking engine's behaviour for this
particular pattern:
  * the optional quantity group, when it participates, captures exactly the
    maximal leading digit run (giving digits back would put a digit where
    `\s+` must match), while `\s+` backtracks from the maximal whitespace
    run down to a single character;
  * `(.*?)` is lazy, so the name capture is the shortest prefix (containing
    no line terminator) whose remainder is a full concatenation of flag
    tokens `\s-[a-zA-Z]+(?:=\S*)?`;
  * each flag token is parsed greedily; no other decomposition is possible
    because a token's trailing `\S*` cannot stop before a non-space and the
    next token must begin with `\s`.
-/

/-- Match one flag token `\s-[a-zA-Z]+(?:=\S*)?` at the head of the input,
returning the remainder. -/
def matchFlagToken : List Char → Option (List Char)
  | c :: d :: rest =>
    if isJsSpace c && decide (d = '-') then
      let nm := rest.takeWhile isAsciiLetter
      if nm.isEmpty then none
      else
        match rest.drop nm.length with
        | '=' :: v => some (v.dropWhile (fun x => !isJsSpace x))
        | other => some other
    else none
  | _ => none

/-- Fueled star of flag tokens; each token consumes at least three
characters, so fuel equal to the input length makes this the exact unbounded
star `(?:\s-[a-zA-Z]+(?:=\S*)?)*` anchored at the end. -/
def tokenStarF : Nat → List Char → Bool
  | _, [] => true
  | 0, _ :: _ => false
  | n + 1, s =>
    match matchFlagToken s with
    | some rest => tokenStarF n rest
    | none => false

/-- Whether the whole input is a concatenation of flag tokens. -/
def tokenStar (s : List Char) : Bool := tokenStarF s.length s

/-- Lazy scan for `(.*?)((?:\s-[a-zA-Z]+(?:=\S*)?)*)?$`: try the shortest
name capture first, stopping at line terminators (which `.` cannot match).
Returns the pair (group 2, group 3). -/
def matchTailGo : List Char → List Char → Option (List Char × List Char)
  | acc, rest =>
    if tokenStar rest then some (acc.reverse, rest)
    else
      match rest with
      | [] => none
      | c :: rest2 =>
        if isLineTerm c then none else matchTailGo (c :: acc) rest2

/-- Match `(.*?)((?:\s-[a-zA-Z]+(?:=\S*)?)*)?$` against the whole input. -/
def matchTail (s : List Char) : Option (List Char × List Char) :=
  matchTailGo [] s

/-- Backtracking over how much of the whitespace run `\s+` consumes, longest
first; `afterDigits` is the input after the digit run, `k` the number of
whitespace characters still offered to `\s+`. -/
def tryFromK (afterDigits : List Char) : Nat → Option (List Char × List Char)
  | 0 => none
  | k + 1 =>
    match matchTail (afterDigits.drop (k + 1)) with
    | some r => some r
    | none => tryFromK afterDigits k

/-- The full regex match of `parseString`: returns the captures
(group 1, group 2, group 3), or `none` when the regex does not match. -/
def jsMatch (input : List Char) :
    Option (Option (List Char) × List Char × List Char) :=
  if (input.takeWhile isDigitChar).isEmpty then
    (matchTail input).map (fun p => (none, p.1, p.2))
  else
    match tryFromK (input.drop (input.takeWhile isDigitChar).length)
        ((input.drop (input.takeWhile isDigitChar).length).takeWhile
          isJsSpace).length with
    | some p => some (some (input.takeWhile isDigitChar), p.1, p.2)
    | none => (matchTail input).map (fun p => (none, p.1, p.2))

/-- `parseInt` on the digit-only capture of group 1. -/
def digitsToNat (ds : List Char) : Nat :=
  ds.foldl (fun n c => n * 10 + (c.toNat - 48)) 0

/-- Whitespace-splitting helper for the flag segment: accumulates the current
word (reversed) and emits words between whitespace runs. -/
def splitWsGo : List Char → List Char → List (List Char)
  | acc, [] => if acc.isEmpty then [] else [acc.reverse]
  | acc, c :: rest =>
    if isJsSpace c then
      if acc.isEmpty then splitWsGo [] rest
      else acc.reverse :: splitWsGo [] rest
    else splitWsGo (c :: acc) rest

/-- Split a segment into maximal whitespace-free words. -/
def splitWs (s : List Char) : List (List Char) := splitWsGo [] s

/-- Parse one whitespace-free word as a flag token `-<letters>[=<value>]`;
`none` when the word is malformed. -/
def parseFlagWord (w : List Char) : Option (List Char × Option (List Char)) :=
  match w with
  | '-' :: rest =>
    let nm := rest.takeWhile isAsciiLetter
    if nm.isEmpty then none
    else
      match rest.drop nm.length with
      | [] => some (nm, none)
      | '=' :: v => some (nm, some v)
      | _ => none
  | _ => none

/-- Modelled from the spec: `parseFlags` lives in `src/services/parser.utils`,
which is not part of the sources; per §4.1 the segment is split into
whitespace-separated tokens, each a dash followed by letters with an optional
`=value` run, malformed tokens are skipped, and a repeated name is
overwritten last-write-wins. -/
def parseFlags (s : List Char) : FlagMap :=
  (splitWs s).foldl
    (fun m w =>
      match parseFlagWord w with
      | some kv => mapSet m kv.1 kv.2
      | none => m)
    []

/-- The reserved flag name `l`. -/
def lKey : List Char := ['l']

/-- The quantity computed from the group-1 capture: `parseInt` of the digits
when the group participated, and the `isNaN` fallback 1 when it did not. -/
def quantityOfGroup : Option (List Char) → Nat
  | none => 1
  | some ds => digitsToNat ds

/-- `parseString` (`src/services/parser.ts`): match the regex, default the
quantity to 1 when group 1 is absent (`parseInt` yields `NaN` only then,
since a captured group 1 is a nonempty digit run), parse the flags, move the
`l` flag into `language` and delete it from the map. -/
def parseString (input : List Char) : Option ParsedCard :=
  match jsMatch input with
  | none => none
  | some (g1, g2, g3) =>
    let quantity : Nat :=
      match g1 with
      | none => 1
      | some ds => digitsToNat ds
    let flags := parseFlags g3
    some
      { name := g2
        quantity := quantity
        language := Option.join (mapGet flags lKey)
        customFlags := mapDelete flags lKey }

/-! ## Transport and promise model (`_callApi`, lines 184–194)

`FetchResult.fault` models the `fetch` call (or the body decode) rejecting;
`FetchResult.resp ok body` models a response with its `ok` indicator and its
decoded JSON body. -/

/-- Outcome of one `fetch uri` as seen by `_callApi`. -/
inductive FetchResult (β : Type) where
  | fault : FetchResult β
  | resp (ok : Bool) (body : β) : FetchResult β
deriving DecidableEq, Repr

/-- `_callApi`: await the (rate-gated) fetch; a transport fault rejects the
returned promise; a non-ok response resolves to `undefined`; an ok response
resolves to the callback applied to the decoded body.  The rate gate only
delays the call, which a value-level model does not observe. -/
def callApi {β γ : Type} (fetch : List Char → FetchResult β) (uri : List Char)
    (cb : β → Except Unit (Option γ)) : Except Unit (Option γ) :=
  match fetch uri with
  | FetchResult.fault => Except.error ()
  | FetchResult.resp ok body => if ok then cb body else Except.ok none

/-- `getCard` (lines 31–57): build the request URI from the reference's name
shape and issue it through `_callApi` with the default identity callback. -/
def getCard {β : Type} (fetch : List Char → FetchResult β)
    (card : ParsedCard) : Except Unit (Option β) :=
  callApi fetch (getCardRequestURI card) (fun b => Except.ok (some b))

/-- `Promise.all`: resolves to the results in input order, rejects when any
member rejects. -/
def promiseAll {ε α : Type} : List (Except ε α) → Except ε (List α)
  | [] => Except.ok []
  | x :: xs =>
    match x with
    | Except.error e => Except.error e
    | Except.ok a =>
      match promiseAll xs with
      | Except.error e => Except.error e
      | Except.ok as => Except.ok (a :: as)

/-- `getCardsBatch` (lines 81–90): `Promise.all` over `getCard` of each
reference, in input order. -/
def getCardsBatch {β : Type} (fetch : List Char → FetchResult β)
    (cards : List ParsedCard) : Except Unit (List (Option β)) :=
  promiseAll (cards.map (fun c => getCard fetch c))

/-! ## Pagination (`_getListFromApi`, lines 152–180) -/

/-- The list envelope decoded by `_getListFromApi`. -/
structure ListEnvelope (α : Type) where
  data : List α
  has_more : Bool
  next_page : Option (List Char)
deriving DecidableEq, Repr

/-- `_getListFromApi`: fetch the envelope; when `has_more` is true and a next
page is present, recursively fetch the rest, concatenate this page's entries
ahead of the recursively fetched entries, pass a rejection through, collapse
an absent tail to absent, and apply the success callback to the full
concatenation; otherwise apply the callback to this page's entries.  `fuel`
bounds the recursion depth of the embedding only — the source recursion is
unbounded, and every theorem below supplies fuel at least the length of the
page chain it talks about, so the `fuel = 0` arm is never reached there. -/
def getListFromApi {α β : Type} (fetch : List Char → FetchResult (ListEnvelope α)) :
    Nat → List Char → (List α → Except Unit (Option β)) → Except Unit (Option β)
  | fuel, uri, cb =>
    callApi fetch uri (fun env =>
      match env.has_more, env.next_page with
      | true, some np =>
        (match fuel with
         | 0 => Except.error ()
         | fuel2 + 1 =>
           match getListFromApi fetch fuel2 np
               (fun listData => Except.ok (some (env.data ++ listData))) with
           | Except.error e => Except.error e
           | Except.ok none => Except.ok none
           | Except.ok (some allData) => cb allData)
      | _, _ => cb env.data)

/-- A complete pagination chain: from `uri`, each envelope is fetched with an
ok response, every page but the last has `has_more` true and a next page, and
the last page ends the chain (its `has_more` is false or its `next_page` is
absent).  The list collects the `data` of every page in remote order. -/
inductive PageChain {α : Type} (fetch : List Char → FetchResult (ListEnvelope α)) :
    List Char → List (List α) → Prop where
  | last : ∀ uri env, fetch uri = FetchResult.resp true env →
      (env.has_more = false ∨ env.next_page = none) →
      PageChain fetch uri [env.data]
  | more : ∀ uri env np rest, fetch uri = FetchResult.resp true env →
      env.has_more = true → env.next_page = some np →
      PageChain fetch np rest →
      PageChain fetch uri (env.data :: rest)

/-- A pagination chain that reaches a non-success response after `n` hops. -/
inductive NotOkPage {α : Type} (fetch : List Char → FetchResult (ListEnvelope α)) :
    List Char → Nat → Prop where
  | here : ∀ uri env, fetch uri = FetchResult.resp false env →
      NotOkPage fetch uri 0
  | there : ∀ uri env np n, fetch uri = FetchResult.resp true env →
      env.has_more = true → env.next_page = some np →
      NotOkPage fetch np n → NotOkPage fetch uri (n + 1)

/-- A pagination chain that reaches a transport fault after `n` hops. -/
inductive FaultPage {α : Type} (fetch : List Char → FetchResult (ListEnvelope α)) :
    List Char → Nat → Prop where
  | here : ∀ uri, fetch uri = FetchResult.fault → FaultPage fetch uri 0
  | there : ∀ uri env np n, fetch uri = FetchResult.resp true env →
      env.has_more = true → env.next_page = some np →
      FaultPage fetch np n → FaultPage fetch uri (n + 1)

/-! ## Concrete fixtures used by witnesses and counterexamples -/

/-- A reference whose name is a unique identifier (from the repository's own
test fixtures). -/
def w1uuid : ParsedCard :=
  ⟨"56ebc372-aabd-4174-a943-c7bf59e5028d".data, 1, none, []⟩

/-- A reference whose name is a set/number code. -/
def w1code : ParsedCard := ⟨"m3c/331".data, 1, none, []⟩

/-- A reference whose name is a display name. -/
def w1fuzzy : ParsedCard := ⟨"Black Lotus".data, 1, none, []⟩

/-- A three-page remote list: `p1 → p2 → p3`. -/
def w4fetch : List Char → FetchResult (ListEnvelope Nat) := fun uri =>
  if uri = "p1".data then FetchResult.resp true ⟨[1, 2], true, some "p2".data⟩
  else if uri = "p2".data then FetchResult.resp true ⟨[3], true, some "p3".data⟩
  else if uri = "p3".data then FetchResult.resp true ⟨[4, 5], false, none⟩
  else FetchResult.fault

/-- A two-page remote list whose second page faults at the transport level. -/
def c3fetch : List Char → FetchResult (ListEnvelope Nat) := fun uri =>
  if uri = "q1".data then FetchResult.resp true ⟨[7], true, some "q2".data⟩
  else FetchResult.fault

/-- A two-page remote list whose second page answers with a non-success
status. -/
def c3okfetch : List Char → FetchResult (ListEnvelope Nat) := fun uri =>
  if uri = "r1".data then FetchResult.resp true ⟨[1], true, some "r2".data⟩
  else FetchResult.resp false ⟨[], false, none⟩

/-- The parser fixture line for the language-extraction witness. -/
def w8input : List Char := "2 aa -l=fr -x=1".data

/-- The flags segment captured by group 3 on `w8input`. -/
def w8flags : List Char := " -l=fr -x=1".data

/-- The reference parsed from `w8input`. -/
def w8card : ParsedCard := ⟨"aa".data, 2, some "fr".data, [(['x'], some ['1'])]⟩

/-- A non-reserved flag name. -/
def xKey : List Char := ['x']

/-- Batch fixture references. -/
def w9a : ParsedCard := ⟨"aaa".data, 1, none, []⟩

/-- Batch fixture references. -/
def w9b : ParsedCard := ⟨"bbb".data, 1, none, []⟩

/-- A transport answering 1 for the fuzzy lookup of `aaa` and 2 elsewhere. -/
def w9fetch : List Char → FetchResult Nat := fun uri =>
  if uri = "https://api.scryfall.com/cards/named/?fuzzy=aaa".data then
    FetchResult.resp true 1
  else FetchResult.resp true 2

/-- A single-page remote list whose envelope claims more pages but carries no
next-page reference. -/
def w10fetch : List Char → FetchResult (ListEnvelope Nat) := fun _ =>
  FetchResult.resp true ⟨[9], true, none⟩

/-! ## Helper lemmas -/

/-- A run matcher fails when a rejected character sits inside the run. -/
theorem expectRun_none_mid (p : Char → Bool) (x : Char) (hx : p x = false) :
    ∀ (a t : List Char) (n : Nat), a.length < n →
      expectRun p n (a ++ x :: t) = none := by
  intro a
  induction a with
  | nil =>
    intro t n hn
    match n, hn with
    | m + 1, _ => simp [expectRun, hx]
  | cons c a2 ih =>
    intro t n hn
    match n, hn with
    | m + 1, hn =>
      simp only [List.cons_append, expectRun]
      by_cases hc : p c
      · simp only [hc, if_true]
        exact ih t m (by simpa using Nat.lt_of_succ_lt_succ hn)
      · simp [hc]

/-- A name containing a slash within its first eight characters never matches
the unique-identifier regex. -/
theorem uuidTest_slash_false (a t : List Char) (ha : a.length < 8) :
    uuidTest (a ++ '/' :: t) = false := by
  have h := expectRun_none_mid isHexLower '/' (by decide) a t 8 ha
  simp [uuidTest, h]

/-- Splitting a slash-free list yields that list as the only segment. -/
theorem splitOnSlash_no_slash (l : List Char) (h : ∀ c ∈ l, c ≠ '/') :
    splitOnSlash l = [l] := by
  induction l with
  | nil => rfl
  | cons c rest ih =>
    have hc : c ≠ '/' := h c (List.mem_cons_self c rest)
    have hr := ih (fun d hd => h d (List.mem_cons_of_mem c hd))
    simp [splitOnSlash, hc, hr]

/-- Splitting peels off a slash-free head segment. -/
theorem splitOnSlash_append (a t : List Char) (h : ∀ c ∈ a, c ≠ '/') :
    splitOnSlash (a ++ '/' :: t) = a :: splitOnSlash t := by
  induction a with
  | nil => simp [splitOnSlash]
  | cons c a2 ih =>
    have hc : c ≠ '/' := h c (List.mem_cons_self c a2)
    have hr := ih (fun d hd => h d (List.mem_cons_of_mem c hd))
    simp only [List.cons_append, splitOnSlash, hc, if_false, List.append_eq,
      hr]

/-- Inversion for a successful flag-map match of `parseString`: the returned
reference is assembled field by field from the regex captures. -/
theorem parseString_eq (input : List Char) (g1 : Option (List Char))
    (g2 g3 : List Char) (h : jsMatch input = some (g1, g2, g3)) :
    parseString input = some
      { name := g2
        quantity := quantityOfGroup g1
        language := Option.join (mapGet (parseFlags g3) lKey)
        customFlags := mapDelete (parseFlags g3) lKey } := by
  cases g1 <;> simp [parseString, h, quantityOfGroup]

/-- Which group-1 captures `jsMatch` can produce: either the quantity group
did not participate, or it captured exactly the maximal leading digit run,
which is nonempty. -/
theorem jsMatch_group1 (input : List Char) (g1 : Option (List Char))
    (g2 g3 : List Char) (h : jsMatch input = some (g1, g2, g3)) :
    g1 = none ∨
      (g1 = some (input.takeWhile isDigitChar) ∧
        input.takeWhile isDigitChar ≠ []) := by
  by_cases hds : (input.takeWhile isDigitChar).isEmpty
  · left
    rw [jsMatch, if_pos hds] at h
    rcases Option.map_eq_some'.mp h with ⟨p, -, hp⟩
    exact (congrArg Prod.fst hp.symm)
  · rw [jsMatch, if_neg hds] at h
    cases htry : tryFromK (input.drop (input.takeWhile isDigitChar).length)
        ((input.drop (input.takeWhile isDigitChar).length).takeWhile
          isJsSpace).length with
    | some p =>
      rw [htry] at h
      right
      refine ⟨(congrArg Prod.fst (Option.some.inj h)).symm, ?_⟩
      simpa [List.isEmpty_iff] using hds
    | none =>
      rw [htry] at h
      left
      rcases Option.map_eq_some'.mp h with ⟨p, -, hp⟩
      exact (congrArg Prod.fst hp.symm)

/-- Deleting a key removes it. -/
theorem mapGet_mapDelete_self (m : FlagMap) (k : List Char) :
    mapGet (mapDelete m k) k = none := by
  induction m with
  | nil => rfl
  | cons p rest ih =>
    by_cases hp : p.1 = k
    · simp [mapDelete, hp, ih]
    · simp [mapDelete, mapGet, hp, ih]

/-- Deleting a key leaves every other key untouched. -/
theorem mapGet_mapDelete_ne (m : FlagMap) (k k2 : List Char) (h : k2 ≠ k) :
    mapGet (mapDelete m k) k2 = mapGet m k2 := by
  induction m with
  | nil => rfl
  | cons p rest ih =>
    by_cases hp : p.1 = k
    · have h1 : mapDelete (p :: rest) k = mapDelete rest k := by
        simp [mapDelete, hp]
      have hne : p.1 ≠ k2 := by rw [hp]; exact fun e => h e.symm
      rw [h1, ih]
      simp [mapGet, hne]
    · have h1 : mapDelete (p :: rest) k = p :: mapDelete rest k := by
        simp [mapDelete, hp]
      rw [h1]
      by_cases hp2 : p.1 = k2
      · simp [mapGet, hp2]
      · simp [mapGet, hp2, ih]

/-- A character matched by `\s` is not a digit. -/
theorem isJsSpace_not_digit (c : Char) (h : isJsSpace c = true) :
    isDigitChar c = false := by
  simp only [isJsSpace, jsSpaceCodes, List.contains] at h
  simp only [List.elem_iff, List.mem_cons, List.not_mem_nil, or_false] at h
  simp only [isDigitChar]
  rcases h with h | h | h | h | h | h | h | h | h | h | h | h | h |
    h | h | h | h | h | h | h | h | h | h | h | h <;> simp [h]

/-- A successful flag token starts with a `\s` character. -/
theorem matchFlagToken_space (c : Char) (t r : List Char)
    (h : matchFlagToken (c :: t) = some r) : isJsSpace c = true := by
  cases t with
  | nil => exact absurd h (by simp [matchFlagToken])
  | cons d rest =>
    by_cases hs : (isJsSpace c && decide (d = '-')) = true
    · exact (Bool.and_eq_true (isJsSpace c) (decide (d = '-')) |>.mp hs).1
    · exfalso
      simp only [matchFlagToken] at h
      rw [if_neg hs] at h
      exact Option.noConfusion h

/-- A nonempty all-token segment starts with a `\s` character. -/
theorem tokenStar_head_space (c : Char) (t : List Char)
    (h : tokenStar (c :: t) = true) : isJsSpace c = true := by
  simp only [tokenStar, List.length_cons, tokenStarF] at h
  cases hm : matchFlagToken (c :: t) with
  | none => rw [hm] at h; exact absurd h (by simp)
  | some r => exact matchFlagToken_space c t r hm

/-- Helper for C3: a non-success response reached anywhere in the chain
collapses the whole paginated fetch to an absent result. -/
theorem getList_notOk_aux {α : Type}
    (fetch : List Char → FetchResult (ListEnvelope α)) (uri : List Char)
    (n : Nat) (h : NotOkPage fetch uri n) :
    ∀ (fuel : Nat), n ≤ fuel →
      ∀ (β : Type) (cb : List α → Except Unit (Option β)),
        getListFromApi fetch fuel uri cb = Except.ok none := by
  induction h with
  | here uri env hf =>
    intro fuel _ β cb
    unfold getListFromApi
    simp [callApi, hf]
  | there uri env np n hf hm hn _ ih =>
    intro fuel hfuel β cb
    match fuel, hfuel with
    | fuel2 + 1, hfuel =>
      unfold getListFromApi
      simp only [callApi, hf, if_true, hm, hn]
      rw [ih fuel2 (Nat.le_of_succ_le_succ hfuel) (List α)
        (fun listData => Except.ok (some (env.data ++ listData)))]

/-- Helper for C3: a transport fault reached anywhere in the chain rejects
the whole paginated fetch. -/
theorem getList_fault_aux {α : Type}
    (fetch : List Char → FetchResult (ListEnvelope α)) (uri : List Char)
    (n : Nat) (h : FaultPage fetch uri n) :
    ∀ (fuel : Nat), n ≤ fuel →
      ∀ (β : Type) (cb : List α → Except Unit (Option β)),
        getListFromApi fetch fuel uri cb = Except.error () := by
  induction h with
  | here uri hf =>
    intro fuel _ β cb
    unfold getListFromApi
    simp [callApi, hf]
  | there uri env np n hf hm hn _ ih =>
    intro fuel hfuel β cb
    match fuel, hfuel with
    | fuel2 + 1, hfuel =>
      unfold getListFromApi
      simp only [callApi, hf, if_true, hm, hn]
      rw [ih fuel2 (Nat.le_of_succ_le_succ hfuel) (List α)
        (fun listData => Except.ok (some (env.data ++ listData)))]

/-- C3 (amended): when a page of the chain answers with a non-success
response, the whole paginated fetch resolves to absent; a transport-level
fault anywhere in the chain instead propagates as a failure of the returned
promise. -/
theorem getList_failure_modes {α β : Type}
    (fetch : List Char → FetchResult (ListEnvelope α)) (uri : List Char)
    (n fuel : Nat) (cb : List α → Except Unit (Option β)) :
    (NotOkPage fetch uri n → n ≤ fuel →
      getListFromApi fetch fuel uri cb = Except.ok none) ∧
    (FaultPage fetch uri n → n ≤ fuel →
      getListFromApi fetch fuel uri cb = Except.error ()) :=
  ⟨fun h hf => getList_notOk_aux fetch uri n h fuel hf β cb,
   fun h hf => getList_fault_aux fetch uri n h fuel hf β cb⟩

/-- C3 (counterexample): a transport fault on the second page of a chain
makes the paginated fetch reject rather than resolve to absent. -/
theorem getList_fault_collapse_cex :
    getListFromApi c3fetch 1 ("q1".data)
        (fun (l : List Nat) => Except.ok (some l)) = Except.error () ∧
    (Except.error () : Except Unit (Option (List Nat))) ≠ Except.ok none :=
  ⟨getList_fault_aux c3fetch ("q1".data) 1
      (FaultPage.there _ ⟨[7], true, some ("q2".data)⟩ ("q2".data) 0 rfl rfl
        rfl (FaultPage.here _ rfl))
      1 (Nat.le_refl 1) (List Nat) (fun l => Except.ok (some l)),
   fun h => Except.noConfusion h⟩

/-- Witness for C3: concrete two-page chains exercising both failure
modes. -/
theorem getList_failure_modes_witness :
    getListFromApi c3okfetch 2 ("r1".data)
        (fun (l : List Nat) => Except.ok (some l)) = Except.ok none ∧
    getListFromApi c3fetch 2 ("q1".data)
        (fun (l : List Nat) => Except.ok (some l)) = Except.error () := by
  constructor
  · exact (getList_failure_modes c3okfetch ("r1".data) 1 2 _).1
      (NotOkPage.there _ ⟨[1], true, some ("r2".data)⟩ ("r2".data) 0 rfl rfl
        rfl (NotOkPage.here _ ⟨[], false, none⟩ rfl))
      (by norm_num)
  · exact (getList_failure_modes c3fetch ("q1".data) 1 2 _).2
      (FaultPage.there _ ⟨[7], true, some ("q2".data)⟩ ("q2".data) 0 rfl rfl
        rfl (FaultPage.here _ rfl))
      (by norm_num)

/-- C4: over a complete pagination chain, `_getListFromApi` resolves to the
success transform applied exactly once to the concatenation of all pages'
entries, each page's entries ahead of later pages' (the equation holds for
every transform, so the result depends on the transform only through its
value on the full concatenation). -/
theorem getList_pagination_assembles {α : Type}
    (fetch : List Char → FetchResult (ListEnvelope α)) (uri : List Char)
    (pages : List (List α)) (h : PageChain fetch uri pages) :
    ∀ (fuel : Nat), pages.length ≤ fuel + 1 →
      ∀ (β : Type) (cb : List α → Except Unit (Option β)),
        getListFromApi fetch fuel uri cb = cb pages.flatten := by
  induction h with
  | last uri env hf hend =>
    intro fuel _ β cb
    unfold getListFromApi
    rcases hend with hm | hn
    · simp [callApi, hf, hm]
    · cases hhm : env.has_more <;> simp [callApi, hf, hhm, hn]
  | more uri env np rest hf hm hn hchain ih =>
    intro fuel hlen β cb
    have hne : rest ≠ [] := by cases hchain <;> simp
    match fuel, hlen with
    | fuel2 + 1, hlen =>
      unfold getListFromApi
      simp only [callApi, hf, if_true, hm, hn]
      rw [ih fuel2 (by simpa using Nat.le_of_succ_le_succ hlen) (List α)
        (fun listData => Except.ok (some (env.data ++ listData)))]
      simp
    | 0, hlen =>
      exfalso
      have : rest.length = 0 := by simpa using Nat.le_of_succ_le_succ hlen
      exact hne (List.eq_nil_of_length_eq_zero this)

/-- Witness for C4: the three-page fixture chain assembles all entries in
remote order. -/
theorem getList_pagination_assembles_witness :
    getListFromApi w4fetch 2 ("p1".data)
        (fun (l : List Nat) => Except.ok (some l)) =
      Except.ok (some ([[1, 2], [3], [4, 5]] : List (List Nat)).flatten) := by
  have hch : PageChain w4fetch ("p1".data) [[1, 2], [3], [4, 5]] :=
    PageChain.more _ ⟨[1, 2], true, some ("p2".data)⟩ ("p2".data) _ rfl rfl rfl
      (PageChain.more _ ⟨[3], true, some ("p3".data)⟩ ("p3".data) _ rfl rfl rfl
        (PageChain.last _ ⟨[4, 5], false, none⟩ rfl (Or.inl rfl)))
  exact getList_pagination_assembles w4fetch ("p1".data) _ hch 2 (by norm_num)
    (List Nat) _

/-- C10: an envelope with `has_more` true but no `next_page` ends the chain:
the transform is applied to the entries gathered at this page and the fetch
resolves successfully, with no further page requested. -/
theorem getList_hasMore_noNext {α β : Type}
    (fetch : List Char → FetchResult (ListEnvelope α)) (uri : List Char)
    (d : List α) (fuel : Nat) (cb : List α → Except Unit (Option β))
    (h : fetch uri = FetchResult.resp true ⟨d, true, none⟩) :
    getListFromApi fetch fuel uri cb = cb d := by
  unfold getListFromApi
  simp [callApi, h]

/-- Witness for C10: a concrete truncated envelope resolves to its own
entries even with zero recursion fuel. -/
theorem getList_hasMore_noNext_witness :
    getListFromApi w10fetch 0 ("u".data)
        (fun (l : List Nat) => Except.ok (some l)) = Except.ok (some [9]) :=
  getList_hasMore_noNext w10fetch ("u".data) [9] 0
    (fun l => Except.ok (some l)) rfl

/-- C6: for a single-record lookup, a non-success response resolves to an
absent result while a transport fault rejects the returned promise. -/
theorem getCard_absent_vs_fault {β : Type} (fetch : List Char → FetchResult β)
    (card : ParsedCard) :
    (∀ body, fetch (getCardRequestURI card) = FetchResult.resp false body →
      getCard fetch card = Except.ok none) ∧
    (fetch (getCardRequestURI card) = FetchResult.fault →
      getCard fetch card = Except.error ()) := by
  constructor
  · intro body h
    simp [getCard, callApi, h]
  · intro h
    simp [getCard, callApi, h]

/-- Witness for C6: a mocked non-success status and a mocked transport
exception on a concrete reference. -/
theorem getCard_absent_vs_fault_witness :
    getCard (fun _ => FetchResult.resp false (0 : Nat)) w1fuzzy =
      Except.ok none ∧
    getCard (fun _ => (FetchResult.fault : FetchResult Nat)) w1fuzzy =
      Except.error () :=
  ⟨(getCard_absent_vs_fault (fun _ => FetchResult.resp false 0) w1fuzzy).1
      0 rfl,
   (getCard_absent_vs_fault (fun _ => FetchResult.fault) w1fuzzy).2 rfl⟩

/-- C9: a successful batch resolution has one result per input and the i-th
result is exactly the single-lookup result of the i-th reference. -/
theorem getCardsBatch_order {β : Type} (fetch : List Char → FetchResult β) :
    ∀ (cards : List ParsedCard) (res : List (Option β)),
      getCardsBatch fetch cards = Except.ok res →
      res.length = cards.length ∧
      ∀ (i : Nat) (h1 : i < cards.length) (h2 : i < res.length),
        getCard fetch (cards.get ⟨i, h1⟩) = Except.ok (res.get ⟨i, h2⟩) := by
  intro cards
  induction cards with
  | nil =>
    intro res h
    simp only [getCardsBatch, List.map_nil, promiseAll] at h
    obtain rfl : [] = res := Except.ok.inj h
    exact ⟨rfl, fun i h1 _ => absurd h1 (Nat.not_lt_zero i)⟩
  | cons c cs ih =>
    intro res h
    simp only [getCardsBatch, List.map_cons, promiseAll] at h
    cases hx : getCard fetch c with
    | error e => rw [hx] at h; exact absurd h (by simp)
    | ok a =>
      rw [hx] at h
      cases hrest : promiseAll (cs.map (fun x => getCard fetch x)) with
      | error e =>
        rw [hrest] at h
        exact absurd h (by simp)
      | ok as =>
        rw [hrest] at h
        simp only [Except.ok.injEq] at h
        obtain rfl : a :: as = res := h
        obtain ⟨hlen, hidx⟩ :=
          ih as (by simp only [getCardsBatch]; exact hrest)
        refine ⟨by simp [hlen], ?_⟩
        intro i h1 h2
        cases i with
        | zero => simpa [List.get] using hx
        | succ j =>
          have hj1 : j < cs.length := Nat.lt_of_succ_lt_succ h1
          have hj2 : j < as.length := Nat.lt_of_succ_lt_succ h2
          simpa [List.get] using hidx j hj1 hj2

/-- Witness for C9: a two-reference batch against a transport distinguishing
the two request URIs. -/
theorem getCardsBatch_order_witness :
    ([some 1, some 2] : List (Option Nat)).length =
      ([w9a, w9b] : List ParsedCard).length ∧
    getCard w9fetch ([w9a, w9b].get ⟨0, by norm_num⟩) =
      Except.ok (([some 1, some 2] : List (Option Nat)).get
        ⟨0, by norm_num⟩) ∧
    getCard w9fetch ([w9a, w9b].get ⟨1, by norm_num⟩) =
      Except.ok (([some 1, some 2] : List (Option Nat)).get
        ⟨1, by norm_num⟩) := by
  have h := getCardsBatch_order w9fetch [w9a, w9b] [some 1, some 2] rfl
  exact ⟨h.1, h.2 0 (by norm_num) (by norm_num),
    h.2 1 (by norm_num) (by norm_num)⟩

/-- C1: the lookup strategy is selected in fixed priority order on the
reference's name — a unique-identifier-shaped name yields the
direct-by-identifier URI, otherwise a code-shaped name yields the
direct-by-code URI, otherwise the fuzzy-name URI with the name
URL-escaped. -/
theorem getCard_strategy (card : ParsedCard) :
    (uuidTest card.name = true →
      getCardRequestURI card =
        SCRYFALL_API_URI ++ "/cards/".data ++ card.name) ∧
    (uuidTest card.name = false → codeTest card.name = true →
      getCardRequestURI card =
        SCRYFALL_API_URI ++ "/cards/".data ++ effectiveCardCode card) ∧
    (uuidTest card.name = false → codeTest card.name = false →
      getCardRequestURI card =
        SCRYFALL_API_URI ++ "/cards/named/?fuzzy=".data ++
          encodeURIComponent card.name) := by
  refine ⟨fun h => ?_, fun h1 h2 => ?_, fun h1 h2 => ?_⟩
  · simp [getCardRequestURI, h]
  · simp [getCardRequestURI, h1, h2]
  · simp [getCardRequestURI, h1, h2]

/-- Witness for C1: one concrete reference of each of the three shapes. -/
theorem getCard_strategy_witness :
    getCardRequestURI w1uuid =
      "https://api.scryfall.com/cards/56ebc372-aabd-4174-a943-c7bf59e5028d".data ∧
    getCardRequestURI w1code = "https://api.scryfall.com/cards/m3c/331".data ∧
    getCardRequestURI w1fuzzy =
      "https://api.scryfall.com/cards/named/?fuzzy=Black%20Lotus".data :=
  ⟨((getCard_strategy w1uuid).1 (by decide)).trans (by decide),
   ((getCard_strategy w1code).2.1 (by decide) (by decide)).trans (by decide),
   ((getCard_strategy w1fuzzy).2.2 (by decide) (by decide)).trans (by decide)⟩

/-- C5: for a code-shaped name carrying a recognized language override, the
request keeps exactly the first two slash components and appends the
override as the third, replacing any embedded language segment. -/
theorem getCard_language_override (a b l lang : List Char) (q : Nat)
    (fl : FlagMap)
    (ha : ∀ c ∈ a, c ≠ '/') (hb : ∀ c ∈ b, c ≠ '/') (hl : ∀ c ∈ l, c ≠ '/')
    (hvalid : lang ∈ validLanguages) :
    (codeTest (a ++ '/' :: (b ++ '/' :: l)) = true →
      getCardRequestURI ⟨a ++ '/' :: (b ++ '/' :: l), q, some lang, fl⟩ =
        SCRYFALL_API_URI ++ "/cards/".data ++
          (a ++ '/' :: (b ++ '/' :: lang))) ∧
    (codeTest (a ++ '/' :: b) = true →
      getCardRequestURI ⟨a ++ '/' :: b, q, some lang, fl⟩ =
        SCRYFALL_API_URI ++ "/cards/".data ++
          (a ++ '/' :: (b ++ '/' :: lang))) := by
  constructor
  · intro hcode
    have hsplit : splitOnSlash (a ++ '/' :: (b ++ '/' :: l)) = [a, b, l] := by
      rw [splitOnSlash_append a (b ++ '/' :: l) ha,
        splitOnSlash_append b l hb, splitOnSlash_no_slash l hl]
    have ha5 : a.length ≤ 5 := by
      unfold codeTest at hcode
      rw [hsplit] at hcode
      simp only [Bool.and_eq_true, decide_eq_true_eq] at hcode
      obtain ⟨⟨⟨⟨-, h5⟩, -⟩, -⟩, -⟩ := hcode
      exact h5
    have huuid : uuidTest (a ++ '/' :: (b ++ '/' :: l)) = false :=
      uuidTest_slash_false a (b ++ '/' :: l) (Nat.lt_of_le_of_lt ha5
        (by norm_num))
    rw [getCardRequestURI]
    simp only [huuid, Bool.false_eq_true, if_false, hcode, if_true]
    have hcc :
        effectiveCardCode ⟨a ++ '/' :: (b ++ '/' :: l), q, some lang, fl⟩
          = a ++ '/' :: (b ++ '/' :: lang) := by
      rw [effectiveCardCode]
      simp only [hvalid, if_true, hsplit]
      simp [joinSlash]
    rw [hcc]
  · intro hcode
    have hsplit : splitOnSlash (a ++ '/' :: b) = [a, b] := by
      rw [splitOnSlash_append a b ha, splitOnSlash_no_slash b hb]
    have ha5 : a.length ≤ 5 := by
      unfold codeTest at hcode
      rw [hsplit] at hcode
      simp only [Bool.and_eq_true, decide_eq_true_eq] at hcode
      obtain ⟨⟨⟨-, h5⟩, -⟩, -⟩ := hcode
      exact h5
    have huuid : uuidTest (a ++ '/' :: b) = false :=
      uuidTest_slash_false a b (Nat.lt_of_le_of_lt ha5 (by norm_num))
    rw [getCardRequestURI]
    simp only [huuid, Bool.false_eq_true, if_false, hcode, if_true]
    have hcc : effectiveCardCode ⟨a ++ '/' :: b, q, some lang, fl⟩
        = a ++ '/' :: (b ++ '/' :: lang) := by
      rw [effectiveCardCode]
      simp only [hvalid, if_true, hsplit]
      simp [joinSlash]
    rw [hcc]

/-- Witness for C5: the reference `m3c/331/de` with language `fr` targets
`m3c/331/fr`. -/
theorem getCard_language_override_witness :
    getCardRequestURI
        ⟨"m3c".data ++ '/' :: ("331".data ++ '/' :: "de".data), 0,
          some ("fr".data), []⟩ =
      "https://api.scryfall.com/cards/m3c/331/fr".data :=
  ((getCard_language_override ("m3c".data) ("331".data) ("de".data)
      ("fr".data) 0 [] (by decide) (by decide) (by decide) (by decide)).1
    (by decide)).trans (by decide)

/-- C2 (counterexample): the line `0 a` parses with quantity 0, which is a
present, parsable, but non-positive prefix — the returned quantity is not at
least 1. -/
theorem parseString_quantity_cex :
    parseString ("0 a".data) =
      some { name := ['a'], quantity := 0, language := none,
             customFlags := [] } ∧
    ¬ 1 ≤ (0 : Nat) :=
  ⟨rfl, by decide⟩

/-- C2 (amended): the returned quantity equals the numeric value of the
captured leading digit run (which is the maximal leading run and may denote
zero), and is 1 when no quantity prefix is captured; it is at least 1
whenever the captured run does not denote zero. -/
theorem parseString_quantity (input : List Char) (g1 : Option (List Char))
    (g2 g3 : List Char) (card : ParsedCard)
    (hm : jsMatch input = some (g1, g2, g3))
    (hp : parseString input = some card) :
    (g1 = none → card.quantity = 1) ∧
    (∀ ds, g1 = some ds →
      ds = input.takeWhile isDigitChar ∧ ds ≠ [] ∧
      card.quantity = digitsToNat ds) ∧
    (∀ ds, g1 = some ds → digitsToNat ds ≠ 0 → 1 ≤ card.quantity) := by
  have he := parseString_eq input g1 g2 g3 hm
  rw [hp] at he
  obtain rfl := Option.some.inj he
  refine ⟨fun h => by rw [h]; rfl, fun ds h => ?_, fun ds h hz => ?_⟩
  · rcases jsMatch_group1 input g1 g2 g3 hm with h0 | ⟨hrun, hne⟩
    · rw [h0] at h; exact Option.noConfusion h
    · rw [h] at hrun
      have hds := Option.some.inj hrun
      exact ⟨hds, by rw [hds]; exact hne, by rw [h]; rfl⟩
  · show 1 ≤ quantityOfGroup g1
    rw [h]
    show 1 ≤ digitsToNat ds
    exact Nat.one_le_iff_ne_zero.mpr hz

/-- Witness for C2: the line `2 aa` parses with quantity `parseInt "2"`,
which is at least 1. -/
theorem parseString_quantity_witness :
    (⟨"aa".data, 2, none, []⟩ : ParsedCard).quantity = digitsToNat ['2'] ∧
    1 ≤ (⟨"aa".data, 2, none, []⟩ : ParsedCard).quantity :=
  ⟨((parseString_quantity ("2 aa".data) (some ['2']) ("aa".data) []
      ⟨"aa".data, 2, none, []⟩ rfl rfl).2.1 ['2'] rfl).2.2,
   (parseString_quantity ("2 aa".data) (some ['2']) ("aa".data) []
      ⟨"aa".data, 2, none, []⟩ rfl rfl).2.2 ['2'] rfl (by decide)⟩

/-- C7 (counterexample): the empty line is accepted and parses to a
reference whose name is empty — parsing does not fail on an empty name. -/
theorem parseString_empty_name_cex :
    parseString ("".data) =
      some { name := [], quantity := 1, language := none,
             customFlags := [] } := rfl

/-- C7 (amended): a line consisting solely of a (possibly empty) flags
segment parses successfully to a reference with an empty name — the parser
returns an empty-name reference rather than failing. -/
theorem parseString_empty_name_ok (input : List Char)
    (h : tokenStar input = true) :
    parseString input = some
      { name := []
        quantity := 1
        language := Option.join (mapGet (parseFlags input) lKey)
        customFlags := mapDelete (parseFlags input) lKey } := by
  have hds : input.takeWhile isDigitChar = [] := by
    cases input with
    | nil => rfl
    | cons c t =>
      have hsp := tokenStar_head_space c t h
      have hd := isJsSpace_not_digit c hsp
      simp [List.takeWhile_cons, hd]
  have hmt : matchTail input = some ([], input) := by
    unfold matchTail matchTailGo
    simp [h]
  have hjm : jsMatch input = some (none, [], input) := by
    rw [jsMatch, if_pos (by simp [hds])]
    rw [hmt]
    rfl
  have := parseString_eq input none [] input hjm
  simpa [quantityOfGroup] using this

/-- Witness for C7: the flags-only line ` -l=fr` parses to an empty-name
reference. -/
theorem parseString_empty_name_ok_witness :
    parseString (" -l=fr".data) = some
      { name := []
        quantity := 1
        language := Option.join (mapGet (parseFlags (" -l=fr".data)) lKey)
        customFlags := mapDelete (parseFlags (" -l=fr".data)) lKey } :=
  parseString_empty_name_ok (" -l=fr".data) (by decide)

/-- C8: the returned flag map never contains the reserved key `l` — its
value (when present among the parsed flags) becomes the `language` field and
the key is deleted, and every other flag passes through untouched. -/
theorem parseString_language_extraction (input : List Char)
    (g1 : Option (List Char)) (g2 g3 : List Char) (card : ParsedCard)
    (hm : jsMatch input = some (g1, g2, g3))
    (hp : parseString input = some card) :
    mapGet card.customFlags lKey = none ∧
    card.language = Option.join (mapGet (parseFlags g3) lKey) ∧
    ∀ k, k ≠ lKey → mapGet card.customFlags k = mapGet (parseFlags g3) k := by
  have he := parseString_eq input g1 g2 g3 hm
  rw [hp] at he
  obtain rfl := Option.some.inj he
  exact ⟨mapGet_mapDelete_self _ _, rfl,
    fun k hk => mapGet_mapDelete_ne _ _ _ hk⟩

/-- Witness for C8: the line `2 aa -l=fr -x=1` parses with `language = fr`,
no `l` key in the flag map, and the `x` flag untouched. -/
theorem parseString_language_extraction_witness :
    mapGet w8card.customFlags lKey = none ∧
    w8card.language = Option.join (mapGet (parseFlags w8flags) lKey) ∧
    mapGet w8card.customFlags xKey = mapGet (parseFlags w8flags) xKey := by
  have h := parseString_language_extraction w8input (some ['2']) ("aa".data)
    w8flags w8card rfl rfl
  exact ⟨h.1, h.2.1, h.2.2 xKey (by decide)⟩

end Magus
